import Mathlib

/-!
Shallow embedding of the matching-and-selection engine of the `wilkins`
repository (src/wilkins/matching.py, src/wilkins/utils/vision.py, and the
orchestration in src/wilkins/project.py), together with theorems settling
the frozen claims about it.

Conventions of the embedding:
* A pandas DataFrame of submission rows is a `List Row`; mutation in place
  becomes a function returning the updated list.
* Python string operations (`in`, `lower`, `strip`, `rstrip`, `re.sub`,
  `re.split`) are modelled character by character on `String.data`.
* Cell values that may be missing or non-string (`Unit #`, `Latitude`,
  `Longitude`, `Size`) are a `PyVal`; Python `str()` is `pyStr`, with
  `str(nan) = "nan"` and `str(None) = "None"` exactly as in Python.
* `cv2.imdecode` is modelled by an arbitrary `decode : Bytes → Option Img`
  argument (`none` = decode failure, as cv2 returns None);  an image is
  modelled by its dimensions together with the boolean outcomes of the five
  pure heuristic detectors, which is all the selection logic inspects.
* A raised Python exception is the `Except.error` case.
* The md5 content hash of the deduplicator is modelled as injective on
  byte strings, so hash equality is byte equality.
-/

/-! ## Python string primitives -/

/-- Boolean prefix test on character lists. -/
def listPre : List Char → List Char → Bool
  | [], _ => true
  | _ :: _, [] => false
  | a :: as, b :: bs => a == b && listPre as bs

/-- Boolean contiguous-substring test on character lists: Python `sub in hay`. -/
def listInf (sub : List Char) : List Char → Bool
  | [] => listPre sub []
  | b :: bs => listPre sub (b :: bs) || listInf sub bs

/-- Python `sub in hay` for strings. -/
def hasSub (hay sub : String) : Bool := listInf sub.data hay.data

/-- Python `str.lower()` (ASCII case folding, as in all inputs here). -/
def pyLower (s : String) : String := ⟨s.data.map Char.toLower⟩

/-- Python `str.strip()`: remove leading and trailing whitespace. -/
def pyStrip (s : String) : String :=
  ⟨((s.data.dropWhile Char.isWhitespace).reverse.dropWhile Char.isWhitespace).reverse⟩

/-- Python `str.rstrip(chars)`: remove trailing characters drawn from `cs`. -/
def pyRstrip (cs : List Char) (s : String) : String :=
  ⟨(s.data.reverse.dropWhile (fun c => cs.contains c)).reverse⟩

/-- Scan for the next `)` as the non-greedy regex `\(.*?\)` does: `.` cannot
cross a newline, so the scan aborts on `\n`; returns the remainder after the
closing parenthesis. -/
def dropParen : List Char → Option (List Char)
  | [] => none
  | c :: rest => if c = ')' then some rest else if c = '\n' then none else dropParen rest

/-- Fuel-indexed scanner for `re.sub(r"\(.*?\)", "", text)`: each leftmost
shortest `( ... )` span is deleted, a `(` with no reachable `)` is kept and the
scan resumes at the next character.  Fuel bounds the number of steps; it is
instantiated with the length of the input, which always suffices because each
step consumes at least one character. -/
def rbScan : Nat → List Char → List Char
  | 0, _ => []
  | _ + 1, [] => []
  | fuel + 1, c :: rest =>
    if c = '(' then
      match dropParen rest with
      | some rest₂ => rbScan fuel rest₂
      | none => c :: rbScan fuel rest
    else c :: rbScan fuel rest

/-- Embedding of `remove_brackets` in `_find_max_matching_pdf`:
`re.sub(r"\(.*?\)", "", text).strip()`. -/
def remove_brackets (s : String) : String := pyStrip ⟨rbScan s.data.length s.data⟩

/-- First index whose element satisfies `p`, as Python `enumerate` scans do. -/
def pyFindIdx (p : α → Bool) : List α → Option Nat
  | [] => none
  | a :: as => if p a then some 0 else (pyFindIdx p as).map (· + 1)

/-- Maximum of a list of naturals, seeded with 0 as `np.zeros` scoring is. -/
def lmax (l : List Nat) : Nat := l.foldl max 0

/-! ## Data model: submission rows -/

/-- Value of a spreadsheet cell as pandas hands it to the matcher: a string, a
missing value (NaN), or Python None. -/
inductive PyVal where
  | vStr (s : String)
  | vNaN
  | vNone
deriving DecidableEq

/-- Python `str()` applied to a cell value. -/
def pyStr : PyVal → String
  | .vStr s => s
  | .vNaN => "nan"
  | .vNone => "None"

/-- One submission row with the columns the matching engine reads and the
match-state fields it writes (`project.py` initialises `image_matched` to
false and the two indices and `bus_media` to -1). -/
structure Row where
  unit : PyVal
  vendor : String
  mediaType : String
  latitude : PyVal
  longitude : PyVal
  size : PyVal
  image_matched : Bool
  match_image_index : Int
  match_image_file_index : Int
  bus_media : Int
deriving DecidableEq

/-! ## Tier 2: match_with_pdf_content -/

/-- Embedding of the four stringified evidence values of
`_find_max_matching_pdf`: `Unit #` with parenthetical text removed, then
`Latitude`, `Longitude`, `Size`, each through `str()`. -/
def rowValues (r : Row) : List String :=
  [remove_brackets (pyStr r.unit), pyStr r.latitude, pyStr r.longitude, pyStr r.size]

/-- Embedding of `_find_max_matching_pdf`: how many of the four values occur
as a literal substring of the page text. -/
def find_max_matching_pdf (r : Row) (page : String) : Nat :=
  (rowValues r).countP (fun v => hasSub page v)

/-- Per-row body of the scoring loop of `match_with_pdf_content`: rows already
matched are skipped; otherwise the row is marked matched at the first index of
the maximal page score whenever some page scores above zero (`np.any` guard
followed by `np.argmax`, which returns the first maximum). -/
def t2row (pages : List String) (r : Row) : Row :=
  if r.image_matched then r
  else
    let scores := pages.map (find_max_matching_pdf r)
    let m := lmax scores
    if 0 < m then
      match pyFindIdx (fun x => x == m) scores with
      | some j => { r with image_matched := true, match_image_index := (j : Int) }
      | none => r
    else r

/-- Embedding of `match_with_pdf_content` in batch mode (`unit_number=None`,
so the forced-unit branch is not entered; the row loop is per-row
independent). -/
def match_with_pdf_content (s : List Row) (pages : List String) : List Row :=
  s.map (t2row pages)

/-! ## Tier 3: match_with_image_files -/

/-- Per-row body of `match_with_image_files`: the first filename containing
the normalised `Unit #` or the normalised `Media Type` as a substring is
accepted.  The source does not consult `image_matched` here; the
`filenames_already_matched` set it builds is never read (the read is commented
out in the source). -/
def t3pred (r : Row) (f : String) : Bool :=
  hasSub (pyLower (pyStrip f)) (pyLower (pyStrip (pyStr r.unit)))
    || hasSub (pyLower (pyStrip f)) (pyLower (pyStrip r.mediaType))

/-- Body of the filename loop: the first filename passing `t3pred` is
accepted. -/
def t3row (filenames : List String) (r : Row) : Row :=
  match pyFindIdx (t3pred r) filenames with
  | some idx => { r with image_matched := true, match_image_file_index := (idx : Int) }
  | none => r

/-- Embedding of `match_with_image_files`. -/
def match_with_image_files (s : List Row) (filenames : List String) : List Row :=
  s.map (t3row filenames)

/-! ## Tier 4: match_media_type / match_mediatype_with_pdf_content -/

/-- Token test of `match_mediatype_with_pdf_content`: the token, the token
with trailing `s` stripped, or the token with trailing `e`/`s` characters
stripped occurs in the lowercased page content. -/
def tokenHit (t cn : String) : Bool :=
  hasSub cn t || hasSub cn (pyRstrip [ 's'] t) || hasSub cn (pyRstrip [ 'e', 's'] t)

/-- Embedding of `re.split(r"[&@]", s)`. -/
def splitAmpAt : List Char → List Char → List String
  | cur, [] => [⟨cur.reverse⟩]
  | cur, c :: rest =>
    if c = '&' || c = '@' then ⟨cur.reverse⟩ :: splitAmpAt [] rest
    else splitAmpAt (c :: cur) rest

/-- Page test of `match_mediatype_with_pdf_content` for one page: direct token
hit, or, when the media type contains `&` or `@`, a hit by any stripped
sub-token. -/
def pageHit (mt : String) (content : String) : Bool :=
  let cn := pyLower content
  if tokenHit mt cn then true
  else if hasSub mt "&" || hasSub mt "@" then
    (splitAmpAt [] mt.data).any (fun p => tokenHit (pyStrip p) cn)
  else false

/-- Per-row body of `match_mediatype_with_pdf_content` for a non-bus row: the
row is matched at the first page whose content passes `pageHit`. -/
def t4row (pages : List String) (r : Row) : Row :=
  let mt := pyLower r.mediaType
  match pyFindIdx (pageHit mt) pages with
  | some idx => { r with image_matched := true, match_image_index := (idx : Int) }
  | none => r

/-- Embedding of `match_mediatype_with_pdf_content` on one vendor group: rows
are processed in order, and a row whose lowercased media type contains
`"bus"` breaks out of the row loop, leaving that row and all later rows of
the group untouched. -/
def match_mediatype_with_pdf_content (pages : List String) : List Row → List Row
  | [] => []
  | r :: rest =>
    if hasSub (pyLower r.mediaType) "bus" then r :: rest
    else t4row pages r :: match_mediatype_with_pdf_content pages rest

/-- Vendor values in order of first appearance, as `Series.unique()` yields
them. -/
def uniqueVendors (s : List Row) : List String :=
  s.foldl (fun acc r => if acc.contains r.vendor then acc else acc ++ [r.vendor]) []

/-- Gate of `check_all_values_same_for_each_category(submission, "Vendor",
"image_matched", False)`: every row of the vendor has `image_matched` false. -/
def vendorAllUnmatched (s : List Row) (v : String) : Bool :=
  (s.filter (fun r => r.vendor == v)).all (fun r => !r.image_matched)

/-- Write the transformed vendor group back into the submission in order, as
`submission.update(vendor_df)` does (the filtered frame keeps the original
row positions). -/
def scatterVendor : List Row → String → List Row → List Row
  | [], _, _ => []
  | r :: rest, v, g =>
    if r.vendor == v then
      match g with
      | [] => r :: rest
      | r₂ :: g₂ => r₂ :: scatterVendor rest v g₂
    else r :: scatterVendor rest v g

/-- Embedding of `match_media_type`: the per-vendor all-unmatched gate is
computed once from the incoming submission, then each gated vendor group is
run through `match_mediatype_with_pdf_content` and written back. -/
def match_media_type (s : List Row) (pages : List String) : List Row :=
  (uniqueVendors s).foldl
    (fun acc v =>
      if vendorAllUnmatched s v then
        scatterVendor acc v
          (match_mediatype_with_pdf_content pages (acc.filter (fun r => r.vendor == v)))
      else acc) s

/-! ## Tier 5: match_bus_media -/

/-- Embedding of `match_bus_media`: for each vendor whose rows are all
unmatched, if any row of the vendor has `"bus"` in its media type
(case-insensitively, `str.contains("bus", case=False)`), `bus_media` is set
to 1 on every row of that vendor; nothing else is written. -/
def match_bus_media (s : List Row) : List Row :=
  (uniqueVendors s).foldl
    (fun acc v =>
      if vendorAllUnmatched s v then
        if (acc.filter (fun r => r.vendor == v)).any
            (fun r => hasSub (pyLower r.mediaType) "bus") then
          acc.map (fun r => if r.vendor == v then { r with bus_media := 1 } else r)
        else acc
      else acc) s

/-- The full tier sequence as `Project.process_data` runs it:
`match_with_pdf_content`, `match_with_image_files`, `match_media_type`,
`match_bus_media`, in that order. -/
def fullSequence (s : List Row) (pages filenames : List String) : List Row :=
  match_bus_media
    (match_media_type (match_with_image_files (match_with_pdf_content s pages) filenames) pages)

/-! ## Vision: images, scoring, deduplication, selection -/

/-- Byte string of an image blob. -/
abbrev Bytes := List Nat

/-- Decoded raster image, modelled by its dimensions (`image.shape[:2]` is
`(h, w)`) and the boolean outcomes of the five pure heuristic detectors of
vision.py, which are the only facts the selection logic inspects. -/
structure Img where
  h : Nat
  w : Nat
  isUrbanScene : Bool
  isBillboard : Bool
  isMap : Bool
  isGoogleMap : Bool
  isBus : Bool
deriving DecidableEq

/-- Embedding of `score_image`: urban scene + billboard + not map + not
google map. -/
def score_image (i : Img) : Nat :=
  (if i.isUrbanScene then 1 else 0) + (if i.isBillboard then 1 else 0) +
    (if !i.isMap then 1 else 0) + (if !i.isGoogleMap then 1 else 0)

/-- Embedding of `score_image_bus`: bus + not google map. -/
def score_image_bus (i : Img) : Nat :=
  (if i.isBus then 1 else 0) + (if !i.isGoogleMap then 1 else 0)

/-- First counting pass of `remove_all_duplicates`: per-content occurrence
counts over the whole nested pool, built exactly as the nested loops build
the hash map (the md5 digest is modelled as injective, so the map is keyed by
content). -/
def countPass (pool : List (List (Option Bytes))) : Bytes → Nat :=
  pool.foldl
    (fun m g =>
      g.foldl
        (fun m₂ ob =>
          match ob with
          | none => m₂
          | some b => fun x => if x = b then m₂ b + 1 else m₂ x) m)
    (fun _ => 0)

/-- Embedding of `remove_all_duplicates`: every slot whose content occurs
more than once anywhere in the pool becomes `none`; `none` slots stay
`none`. -/
def remove_all_duplicates (pool : List (List (Option Bytes))) : List (List (Option Bytes)) :=
  let cnt := countPass pool
  pool.map (fun g =>
    g.map (fun ob =>
      match ob with
      | none => none
      | some b => if 1 < cnt b then none else some b))

/-- One step of the per-group reduction loop shared by `filter_media` and
`filter_media_bus`.  A `none` slot is passed over; a blob that fails to
decode raises (`cv2.imdecode` returns None and `image.shape` then raises
AttributeError), modelled as `Except.error`; an image below the 300 pixel
threshold on either axis is skipped; otherwise the image replaces the
running best exactly when its score strictly exceeds the running highest
score. -/
def group_reduce (decode : Bytes → Option Img) (scorer : Img → Nat) :
    Int × Option Img → List (Option Bytes) → Except Unit (Int × Option Img)
  | acc, [] => .ok acc
  | acc, ob :: rest =>
    match ob with
    | none => group_reduce decode scorer acc rest
    | some b =>
      match decode b with
      | none => .error ()
      | some img =>
        if img.w < 300 || img.h < 300 then group_reduce decode scorer acc rest
        else if (scorer img : Int) > acc.1 then
          group_reduce decode scorer ((scorer img : Int), some img) rest
        else group_reduce decode scorer acc rest

/-- Group loop of `filter_media`: one output slot per group, `none` when the
group produced no best image, propagating a raised decode failure. -/
def select_loop (decode : Bytes → Option Img) :
    List (List (Option Bytes)) → Except Unit (List (Option Img))
  | [] => .ok []
  | g :: gs =>
    match group_reduce decode score_image ((-1 : Int), none) g with
    | .error e => .error e
    | .ok acc =>
      match select_loop decode gs with
      | .error e => .error e
      | .ok rest => .ok (acc.2 :: rest)

/-- Embedding of `filter_media`: deduplicate, then reduce every group with
initial highest score -1, keeping index alignment by appending `none` for
groups without a best image. -/
def filter_media (decode : Bytes → Option Img) (pool : List (List (Option Bytes))) :
    Except Unit (List (Option Img)) :=
  select_loop decode (remove_all_duplicates pool)

/-- Group loop of `filter_media_bus`: a group whose reduction produced no
best image contributes nothing to the output. -/
def select_loop_bus (decode : Bytes → Option Img) :
    List (List (Option Bytes)) → Except Unit (List Img)
  | [] => .ok []
  | g :: gs =>
    match group_reduce decode score_image_bus ((1 : Int), none) g with
    | .error e => .error e
    | .ok acc =>
      match select_loop_bus decode gs with
      | .error e => .error e
      | .ok rest =>
        match acc.2 with
        | some img => .ok (img :: rest)
        | none => .ok rest

/-- Embedding of `filter_media_bus`: deduplicate, then reduce every group
with initial highest score 1, omitting groups without a best image. -/
def filter_media_bus (decode : Bytes → Option Img) (pool : List (List (Option Bytes))) :
    Except Unit (List Img) :=
  select_loop_bus decode (remove_all_duplicates pool)

/-- Images of a group that decode and meet the 300 pixel minimum on both
axes, in group order (specification-side notion used to state the selection
claims). -/
def qualifying (decode : Bytes → Option Img) (g : List (Option Bytes)) : List Img :=
  (g.filterMap (fun ob => ob.bind decode)).filter (fun i => 300 ≤ i.w && 300 ≤ i.h)

/-- First image of a list attaining the maximum generic score
(specification-side notion). -/
def pickFirstMax (scorer : Img → Nat) (l : List Img) : Option Img :=
  l.find? (fun i => scorer i == lmax (l.map scorer))

/-- Declarative occurrence count of a byte content in a nested pool
(specification-side notion for the deduplicator). -/
def countBlob (pool : List (List (Option Bytes))) (b : Bytes) : Nat :=
  pool.flatten.countP (fun ob => ob == some b)

/-! ## Basic lemmas on the string and list helpers -/

/-- Specification-side slot transform for the deduplicator: a slot is
suppressed exactly when its content occurs more than once in the whole
pool. -/
def dedupSlot (pool : List (List (Option Bytes))) (ob : Option Bytes) : Option Bytes :=
  match ob with
  | none => none
  | some b => if 1 < countBlob pool b then none else some b

/-- Concrete row with a missing latitude used to exhibit the behaviour of
Tier 2 scoring on malformed input. -/
def rowC9 : Row :=
  ⟨.vStr "z", "V", "m", .vNaN, .vStr "q", .vStr "w", false, -1, -1, -1⟩

/-- Page scores of a row, in page order. -/
def scoresOf (r : Row) (pages : List String) : List Nat :=
  pages.map (find_max_matching_pdf r)

/-- Postcondition of Tier 2 on one unmatched row, as the claim states it: the
score is at most 4; when some page scores above zero, the row is marked
matched at the lowest page index achieving the maximum score; when every page
scores zero (including the empty page pool) the row is unchanged. -/
def tier2Spec (s : List Row) (pages : List String) (i : Nat) (hi : i < s.length) : Prop :=
  (∀ p : String, find_max_matching_pdf (s.get ⟨i, hi⟩) p ≤ 4) ∧
  ((∃ x ∈ scoresOf (s.get ⟨i, hi⟩) pages, 0 < x) →
    ((match_with_pdf_content s pages).get
        ⟨i, by simpa [match_with_pdf_content] using hi⟩).image_matched = true ∧
    ∃ j : Nat, ∃ hj : j < (scoresOf (s.get ⟨i, hi⟩) pages).length,
      ((match_with_pdf_content s pages).get
          ⟨i, by simpa [match_with_pdf_content] using hi⟩).match_image_index = (j : Int) ∧
      (∀ k (hk : k < (scoresOf (s.get ⟨i, hi⟩) pages).length),
        (scoresOf (s.get ⟨i, hi⟩) pages).get ⟨k, hk⟩ ≤
          (scoresOf (s.get ⟨i, hi⟩) pages).get ⟨j, hj⟩) ∧
      (∀ k (hk : k < j),
        (scoresOf (s.get ⟨i, hi⟩) pages).get ⟨k, by omega⟩ <
          (scoresOf (s.get ⟨i, hi⟩) pages).get ⟨j, hj⟩)) ∧
  ((∀ x ∈ scoresOf (s.get ⟨i, hi⟩) pages, x = 0) →
    (match_with_pdf_content s pages).get ⟨i, by simpa [match_with_pdf_content] using hi⟩ = s.get ⟨i, hi⟩)

/-- Concrete unmatched row used as the C2 witness: the unit number carries a
parenthetical annotation and two pages are scored. -/
def rowW : Row :=
  ⟨.vStr "5 (North)", "V", "poster", .vStr "40.1", .vStr "70", .vStr "bb", false, -1, -1, -1⟩

/-- Page texts for the C2 witness. -/
def pagesW : List String := ["xx 5 yy 40.1", "zz"]

/-- Concrete row whose unit number strips to the empty string, for the C10
witness. -/
def rowBlank : Row :=
  ⟨.vStr "  ", "V", "poster", .vStr "1", .vStr "2", .vStr "3", false, -1, -1, -1⟩


/-! ## Frame relations and fold-state helpers for the claim proofs -/

/-- Relation between a row and its image under `match_bus_media`: every field
except `bus_media` is unchanged. -/
def busFrame (a b : Row) : Prop :=
  a.unit = b.unit ∧ a.vendor = b.vendor ∧ a.mediaType = b.mediaType ∧
  a.latitude = b.latitude ∧ a.longitude = b.longitude ∧ a.size = b.size ∧
  a.image_matched = b.image_matched ∧ a.match_image_index = b.match_image_index ∧
  a.match_image_file_index = b.match_image_file_index

/-- Relation between a row and its image under Tier 4 or Tier 5: every field
except `image_matched`, `match_image_index` and `bus_media` is unchanged. -/
def coreFrame (a b : Row) : Prop :=
  a.unit = b.unit ∧ a.vendor = b.vendor ∧ a.mediaType = b.mediaType ∧
  a.latitude = b.latitude ∧ a.longitude = b.longitude ∧ a.size = b.size ∧
  a.match_image_file_index = b.match_image_file_index

/-- Pure step of the best-image accumulator loop once a blob has decoded and
passed the dimension filter. -/
def step2 (scorer : Img → Nat) (acc : Int × Option Img) (img : Img) : Int × Option Img :=
  if (scorer img : Int) > acc.1 then ((scorer img : Int), some img) else acc

/-- Accumulator state of the generic selection loop after scanning a prefix
of qualifying images: highest score so far (-1 before any image) and the
first image attaining it. -/
def stateOf (scorer : Img → Nat) (l : List Img) : Int × Option Img :=
  (match l with
    | [] => (-1 : Int)
    | _ :: _ => (lmax (l.map scorer) : Int),
   pickFirstMax scorer l)

/-- First image of a list whose bus score is strictly greater than 1
(specification-side notion for the bus variant). -/
def firstBus (l : List Img) : Option Img :=
  l.find? (fun i => decide (1 < score_image_bus i))

/-- Boolean test that every blob of a group decodes. -/
def decodesAll (decode : Bytes → Option Img) (g : List (Option Bytes)) : Bool :=
  g.all (fun ob =>
    match ob with
    | none => true
    | some b => (decode b).isSome)

/-! ## Concrete rows, images and decode tables for witnesses -/

/-- Row matched both by Tier 2 (unit number on a page) and by Tier 3 (unit
number inside a filename). -/
def rowC1 : Row :=
  ⟨.vStr "5", "V", "poster", .vStr "40", .vStr "70", .vStr "10x20", false, -1, -1, -1⟩

/-- Unmatched row whose media type is found on a page. -/
def rowPoster : Row :=
  ⟨.vStr "u1", "V", "poster", .vStr "1", .vStr "2", .vStr "3", false, -1, -1, -1⟩

/-- Unmatched row of the same vendor whose media type contains "bus". -/
def rowBusShelter : Row :=
  ⟨.vStr "u2", "V", "Bus Shelter", .vStr "4", .vStr "5", .vStr "6", false, -1, -1, -1⟩

/-- Large decodable image of generic score 3. -/
def imgBig3 : Img := ⟨400, 400, true, true, false, true, false⟩

/-- Large decodable image of generic score 1. -/
def imgBig1 : Img := ⟨400, 400, false, false, true, true, false⟩

/-- Small image (200 by 200), below the 300 pixel threshold. -/
def imgSmallA : Img := ⟨200, 200, true, true, false, false, false⟩

/-- Second small image (210 by 210), below the 300 pixel threshold. -/
def imgSmallB : Img := ⟨210, 210, false, false, false, false, false⟩

/-- Large image of bus score 2 (bus detected, not a google map). -/
def imgBus2 : Img := ⟨400, 400, false, false, false, false, true⟩

/-- Large image of bus score 1 (no bus detected, not a google map). -/
def imgBus1 : Img := ⟨400, 400, false, false, false, false, false⟩

/-- Concrete decode table for the witnesses; byte strings not listed fail to
decode. -/
def decodeD : Bytes → Option Img
  | [1] => some imgBig3
  | [2] => some imgBig1
  | [3] => some imgSmallA
  | [5] => some imgSmallB
  | [6] => some imgBus2
  | [7] => some imgBus1
  | _ => none

/-- Concrete pool for the C7 witness: one group of two small images, one
group with a score-3 and a score-1 image. -/
def pool7 : List (List (Option Bytes)) := [[some [3], some [5]], [some [1], some [2]]]

/-- Concrete pool for the C8 witness: one group with a bus-score-2 image and
one group whose only image has bus score 1. -/
def pool8 : List (List (Option Bytes)) := [[some [6]], [some [7]]]

/-! ## Lemmas and claim theorems -/

theorem listInf_nil_left : ∀ h : List Char, listInf [] h = true
  | [] => rfl
  | _ :: _ => by simp [listInf, listPre]

theorem hasSub_empty (h : String) : hasSub h "" = true := listInf_nil_left h.data

theorem le_foldl_max : ∀ (l : List Nat) (init : Nat), init ≤ l.foldl max init := by
  intro l
  induction l with
  | nil => intro init; simp
  | cons a as ih =>
    intro init
    calc init ≤ max init a := Nat.le_max_left _ _
    _ ≤ (a :: as).foldl max init := by simpa [List.foldl] using ih (max init a)

theorem mem_le_foldl_max : ∀ {x : Nat} {l : List Nat} (init : Nat), x ∈ l → x ≤ l.foldl max init := by
  intro x l
  induction l with
  | nil => intro init hx; cases hx
  | cons a as ih =>
    intro init hx
    rcases List.mem_cons.mp hx with h | h
    · subst h
      calc x ≤ max init x := Nat.le_max_right _ _
      _ ≤ (x :: as).foldl max init := by simpa [List.foldl] using le_foldl_max as (max init x)
    · simpa [List.foldl] using ih (max init a) h

theorem foldl_max_mem : ∀ (l : List Nat) (a : Nat), l.foldl max a ∈ a :: l := by
  intro l
  induction l with
  | nil => intro a; simp
  | cons b bs ih =>
    intro a
    have h := ih (max a b)
    simp only [List.foldl]
    rcases List.mem_cons.mp h with h₁ | h₁
    · rw [h₁]
      rcases max_choice a b with hm | hm <;> rw [hm] <;> simp
    · simp only [List.mem_cons]
      exact Or.inr (Or.inr h₁)

theorem le_lmax {x : Nat} {l : List Nat} (hx : x ∈ l) : x ≤ lmax l :=
  mem_le_foldl_max 0 hx

theorem lmax_mem : ∀ {l : List Nat}, l ≠ [] → lmax l ∈ l := by
  intro l hl
  cases l with
  | nil => exact absurd rfl hl
  | cons a as =>
    have h := foldl_max_mem as (max 0 a)
    simp only [Nat.zero_max] at h
    simpa [lmax, List.foldl, Nat.zero_max] using h

theorem lmax_pos_iff {l : List Nat} : 0 < lmax l ↔ ∃ x ∈ l, 0 < x := by
  constructor
  · intro h
    have hne : l ≠ [] := by
      intro he; subst he; simp [lmax] at h
    exact ⟨lmax l, lmax_mem hne, h⟩
  · rintro ⟨x, hx, hpos⟩
    exact Nat.lt_of_lt_of_le hpos (le_lmax hx)

theorem lmax_append (l : List Nat) (x : Nat) : lmax (l ++ [x]) = max (lmax l) x := by
  simp [lmax, List.foldl_append]

theorem pyFindIdx_eq_none {p : α → Bool} : ∀ {l : List α}, pyFindIdx p l = none ↔ ∀ x ∈ l, p x = false := by
  intro l
  induction l with
  | nil => simp [pyFindIdx]
  | cons a as ih =>
    simp only [pyFindIdx]
    by_cases hpa : p a
    · simp [hpa]
    · rw [if_neg (by simpa using hpa), Option.map_eq_none']
      simp only [List.mem_cons, ih]
      constructor
      · intro h x hx
        rcases hx with h₁ | h₁
        · subst h₁; simpa using hpa
        · exact h x h₁
      · intro h x hx
        exact h x (Or.inr hx)

theorem pyFindIdx_some_lt {p : α → Bool} : ∀ {l : List α} {j : Nat}, pyFindIdx p l = some j → j < l.length := by
  intro l
  induction l with
  | nil => intro j h; simp [pyFindIdx] at h
  | cons a as ih =>
    intro j h
    simp only [pyFindIdx] at h
    by_cases hpa : p a
    · rw [if_pos (by simpa using hpa)] at h
      simp only [Option.some.injEq] at h
      subst h
      simp
    · rw [if_neg (by simpa using hpa), Option.map_eq_some'] at h
      obtain ⟨k, hk, hj⟩ := h
      have := ih hk
      simp only [List.length_cons]
      omega

theorem pyFindIdx_some_get {p : α → Bool} :
    ∀ {l : List α} {j : Nat} (h : pyFindIdx p l = some j) (hj : j < l.length),
      p (l.get ⟨j, hj⟩) = true := by
  intro l
  induction l with
  | nil => intro j h hj; simp [pyFindIdx] at h
  | cons a as ih =>
    intro j h hj
    simp only [pyFindIdx] at h
    by_cases hpa : p a
    · rw [if_pos (by simpa using hpa)] at h
      simp only [Option.some.injEq] at h
      subst h
      simpa using hpa
    · rw [if_neg (by simpa using hpa), Option.map_eq_some'] at h
      obtain ⟨k, hk, hj₂⟩ := h
      subst hj₂
      simpa using ih hk (by have := pyFindIdx_some_lt hk; omega)

theorem pyFindIdx_some_earlier {p : α → Bool} :
    ∀ {l : List α} {j : Nat} (_ : pyFindIdx p l = some j) {k : Nat} (_ : k < j) (hkl : k < l.length),
      p (l.get ⟨k, hkl⟩) = false := by
  intro l
  induction l with
  | nil => intro j h k hk hkl; simp [pyFindIdx] at h
  | cons a as ih =>
    intro j h k hk hkl
    simp only [pyFindIdx] at h
    by_cases hpa : p a
    · rw [if_pos (by simpa using hpa)] at h
      simp only [Option.some.injEq] at h
      omega
    · rw [if_neg (by simpa using hpa), Option.map_eq_some'] at h
      obtain ⟨j₂, hj₂, hjeq⟩ := h
      subst hjeq
      cases k with
      | zero => simpa using hpa
      | succ k₂ =>
        have hk₂ : k₂ < j₂ := by omega
        simpa using ih hj₂ hk₂ (by simpa using Nat.lt_of_succ_lt_succ hkl)

theorem pyFindIdx_isSome_of_mem {p : α → Bool} {x : α} :
    ∀ {l : List α}, x ∈ l → p x = true → ∃ j, pyFindIdx p l = some j := by
  intro l
  induction l with
  | nil => intro hx; cases hx
  | cons a as ih =>
    intro hx hp
    rcases List.mem_cons.mp hx with h | h
    · subst h
      exact ⟨0, by simp [pyFindIdx, hp]⟩
    · by_cases hpa : p a
      · exact ⟨0, by simp [pyFindIdx, hpa]⟩
      · obtain ⟨j, hj⟩ := ih h hp
        exact ⟨j + 1, by simp [pyFindIdx, hpa, hj]⟩

/-! ## Deduplicator: counting pass agrees with the declarative count -/

theorem foldl_bump_eq (g : List (Option Bytes)) :
    ∀ (m : Bytes → Nat) (b : Bytes),
      (g.foldl
        (fun m₂ ob =>
          match ob with
          | none => m₂
          | some b₂ => fun x => if x = b₂ then m₂ b₂ + 1 else m₂ x) m) b
      = m b + g.countP (fun ob => ob == some b) := by
  induction g with
  | nil => intro m b; simp
  | cons ob rest ih =>
    intro m b
    cases ob with
    | none =>
      simp only [List.foldl, List.countP_cons]
      rw [ih]
      simp
    | some b₂ =>
      simp only [List.foldl, List.countP_cons]
      rw [ih]
      by_cases hb : b = b₂
      · subst hb
        simp
        omega
      · have : (some b₂ == some b) = false := by
          simp [Ne.symm hb]
        simp [this, hb]

theorem countPass_eq (pool : List (List (Option Bytes))) (b : Bytes) :
    countPass pool b = countBlob pool b := by
  suffices h : ∀ (m : Bytes → Nat),
      (pool.foldl
        (fun m g =>
          g.foldl
            (fun m₂ ob =>
              match ob with
              | none => m₂
              | some b₂ => fun x => if x = b₂ then m₂ b₂ + 1 else m₂ x) m) m) b
      = m b + countBlob pool b by
    simpa [countPass] using h (fun _ => 0)
  induction pool with
  | nil => intro m; simp [countBlob]
  | cons g gs ih =>
    intro m
    simp only [List.foldl]
    rw [ih, foldl_bump_eq]
    simp [countBlob, List.countP_append]
    omega

/-- C3: the deduplicator preserves the shape of the pool and maps every
slot through the declarative suppression rule: a slot is null in the output
exactly when it was null in the input or its byte content occurs more than
once anywhere in the whole pool; unique blobs pass through unchanged.  The
concrete instance of the claim is included: pool `[[A, B], [A]]` with
distinct A and B becomes `[[null, B], [null]]`. -/
theorem C3_dedup_characterisation (pool : List (List (Option Bytes))) :
    (remove_all_duplicates pool).length = pool.length ∧
    List.Forall₂
      (fun g g₂ => List.Forall₂ (fun ob ob₂ => ob₂ = dedupSlot pool ob) g g₂)
      pool (remove_all_duplicates pool) ∧
    remove_all_duplicates [[some [0], some [1]], [some [0]]] = [[none, some [1]], [none]] := by
  refine ⟨by simp [remove_all_duplicates], ?_, by decide⟩
  rw [remove_all_duplicates, List.forall₂_map_right_iff]
  rw [List.forall₂_same]
  intro g _
  rw [List.forall₂_map_right_iff, List.forall₂_same]
  intro ob _
  cases ob with
  | none => simp [dedupSlot]
  | some b => simp [dedupSlot, countPass_eq]

/-! ## C9: scoring of malformed values -/

/-- C9, counterexample: the claim says a missing latitude is treated as an
empty string and contributes zero evidence, never causing a substring match;
but the code stringifies NaN to `"nan"`, and on the page `"banana"` (which
contains `"nan"`) the row scores 1, not 0, with the evidence coming from the
missing value alone. -/
theorem C9_counterexample :
    rowC9.latitude = PyVal.vNaN ∧ find_max_matching_pdf rowC9 "banana" = 1 := by
  constructor
  · rfl
  · decide

/-- C9, amended: Tier 2 scoring is total (the embedding is a Lean function,
and the Python code applies `str()` to every value, which never raises for a
present column), but a missing value is stringified to `"nan"` rather than
treated as an empty string, so whenever the page text contains `"nan"` the
missing value itself contributes evidence. -/
theorem C9_amended (r : Row) (page : String) (hlat : r.latitude = PyVal.vNaN)
    (hpage : hasSub page "nan" = true) : 1 ≤ find_max_matching_pdf r page := by
  have hmem : pyStr r.latitude ∈ rowValues r := by
    simp [rowValues]
  rw [show (1 : Nat) ≤ find_max_matching_pdf r page ↔ 0 < find_max_matching_pdf r page from Iff.rfl]
  rw [find_max_matching_pdf, List.countP_pos_iff]
  exact ⟨pyStr r.latitude, hmem, by rw [hlat]; simpa [pyStr] using hpage⟩

/-- C9, witness for the amended theorem at a concrete input. -/
theorem C9_amended_witness : 1 ≤ find_max_matching_pdf rowC9 "banana" :=
  C9_amended rowC9 "banana" rfl (by decide)

/-! ## C2: Tier 2 characterisation -/

theorem mwpc_length (s : List Row) (pages : List String) :
    (match_with_pdf_content s pages).length = s.length := by
  simp [match_with_pdf_content]

theorem t2row_skip (pages : List String) (r : Row) (h : r.image_matched = true) :
    t2row pages r = r := by
  simp [t2row, h]

theorem t2row_eq (pages : List String) (r : Row) (hun : r.image_matched = false) :
    t2row pages r =
      (if 0 < lmax (scoresOf r pages) then
        match pyFindIdx (fun x => x == lmax (scoresOf r pages)) (scoresOf r pages) with
        | some j => { r with image_matched := true, match_image_index := (j : Int) }
        | none => r
      else r) := by
  rw [t2row, if_neg (by simp [hun])]
  rfl

/-- C2: on every row not yet matched, Tier 2 scores each page by counting how
many of the four stringified values (unit number with parenthetical text
removed, latitude, longitude, size) occur as substrings of the page text
(hence at most 4), marks the row matched at the lowest page index achieving
the maximum score exactly when the maximum is positive, and leaves a row
scoring zero everywhere (or facing an empty page pool) unchanged. -/
theorem C2_tier2_content_score (s : List Row) (pages : List String) (i : Nat)
    (hi : i < s.length) (hun : (s.get ⟨i, hi⟩).image_matched = false) :
    tier2Spec s pages i hi := by
  have hget : (match_with_pdf_content s pages).get ⟨i, by simpa [match_with_pdf_content] using hi⟩
      = t2row pages (s.get ⟨i, hi⟩) := by
    simp [match_with_pdf_content]
  refine ⟨?_, ?_, ?_⟩
  · intro p
    have h4 : (rowValues (s.get ⟨i, hi⟩)).length = 4 := by simp [rowValues]
    have h := List.countP_le_length (fun v => hasSub p v) (l := rowValues (s.get ⟨i, hi⟩))
    rw [h4] at h
    simpa [find_max_matching_pdf] using h
  · intro hex
    have hpos : 0 < lmax (scoresOf (s.get ⟨i, hi⟩) pages) := lmax_pos_iff.mpr hex
    have hne : scoresOf (s.get ⟨i, hi⟩) pages ≠ [] := by
      intro he
      rw [he] at hpos
      simp [lmax] at hpos
    have hmem := lmax_mem hne
    obtain ⟨j, hj⟩ :=
      pyFindIdx_isSome_of_mem
        (p := fun x => x == lmax (scoresOf (s.get ⟨i, hi⟩) pages)) hmem (by simp)
    have hjlt : j < (scoresOf (s.get ⟨i, hi⟩) pages).length := pyFindIdx_some_lt hj
    have hrow : t2row pages (s.get ⟨i, hi⟩)
        = { s.get ⟨i, hi⟩ with image_matched := true, match_image_index := (j : Int) } := by
      rw [t2row_eq pages _ hun, if_pos hpos, hj]
    have hjget : (scoresOf (s.get ⟨i, hi⟩) pages).get ⟨j, hjlt⟩
        = lmax (scoresOf (s.get ⟨i, hi⟩) pages) := by
      have h := pyFindIdx_some_get hj hjlt
      simpa using h
    refine ⟨by rw [hget, hrow], j, hjlt, by rw [hget, hrow], ?_, ?_⟩
    · intro k hk
      rw [hjget]
      exact le_lmax (List.get_mem _ _ _)
    · intro k hk
      have hkl : k < (scoresOf (s.get ⟨i, hi⟩) pages).length := by omega
      have hne₂ := pyFindIdx_some_earlier hj hk hkl
      have hle : (scoresOf (s.get ⟨i, hi⟩) pages).get ⟨k, hkl⟩
          ≤ lmax (scoresOf (s.get ⟨i, hi⟩) pages) :=
        le_lmax (List.get_mem _ _ _)
      have hnee : (scoresOf (s.get ⟨i, hi⟩) pages).get ⟨k, hkl⟩
          ≠ lmax (scoresOf (s.get ⟨i, hi⟩) pages) := by
        simpa using hne₂
      rw [hjget]
      exact lt_of_le_of_ne hle hnee
  · intro hall
    have hz : lmax (scoresOf (s.get ⟨i, hi⟩) pages) = 0 := by
      by_contra hnz
      obtain ⟨x, hx, hxpos⟩ := lmax_pos_iff.mp (Nat.pos_of_ne_zero hnz)
      rw [hall x hx] at hxpos
      exact absurd hxpos (by simp)
    rw [hget, t2row_eq pages _ hun, if_neg (by omega)]

/-- C2, witness: the theorem applied to a concrete unmatched row and a
concrete page pool. -/
theorem C2_tier2_content_score_witness :
    ([rowW].get ⟨0, by decide⟩).image_matched = false ∧ tier2Spec [rowW] pagesW 0 (by decide) :=
  ⟨rfl, C2_tier2_content_score [rowW] pagesW 0 (by decide) rfl⟩

/-! ## C10: empty normalised unit number in Tier 3 -/

theorem mwif_length (s : List Row) (filenames : List String) :
    (match_with_image_files s filenames).length = s.length := by
  simp [match_with_image_files]

/-- C10: a row whose unit number stringifies, trims and lowercases to the
empty string (or whose media type normalises to the empty string) is always
matched by Tier 3 against any non-empty filename list, with
`match_image_file_index = 0`, because the empty string is a substring of
every filename. -/
theorem C10_empty_unit_matches_first_file (s : List Row) (filenames : List String)
    (i : Nat) (hi : i < s.length)
    (hempty : pyLower (pyStrip (pyStr (s.get ⟨i, hi⟩).unit)) = ""
      ∨ pyLower (pyStrip ((s.get ⟨i, hi⟩).mediaType)) = "")
    (hfe : filenames ≠ []) :
    ((match_with_image_files s filenames).get
        ⟨i, by simpa [match_with_image_files] using hi⟩).image_matched = true ∧
    ((match_with_image_files s filenames).get
        ⟨i, by simpa [match_with_image_files] using hi⟩).match_image_file_index = 0 := by
  have hget : (match_with_image_files s filenames).get ⟨i, by simpa [match_with_image_files] using hi⟩
      = t3row filenames (s.get ⟨i, hi⟩) := by
    simp [match_with_image_files]
  cases filenames with
  | nil => exact absurd rfl hfe
  | cons f fs =>
    have hhit : t3pred (s.get ⟨i, hi⟩) f = true := by
      rw [t3pred]
      rcases hempty with he | he <;> rw [he] <;> simp [hasSub_empty]
    have hfind : pyFindIdx (t3pred (s.get ⟨i, hi⟩)) (f :: fs) = some 0 := by
      simp only [pyFindIdx]
      rw [if_pos hhit]
    rw [hget, t3row]
    rw [hfind]
    exact ⟨rfl, rfl⟩

/-- C10, witness: the theorem applied to a concrete row and filename list. -/
theorem C10_empty_unit_matches_first_file_witness :
    pyLower (pyStrip (pyStr rowBlank.unit)) = "" ∧
    ((match_with_image_files [rowBlank] ["photo.jpg"]).get
        ⟨0, by decide⟩).image_matched = true ∧
    ((match_with_image_files [rowBlank] ["photo.jpg"]).get
        ⟨0, by decide⟩).match_image_file_index = 0 :=
  ⟨by decide,
    C10_empty_unit_matches_first_file [rowBlank] ["photo.jpg"] 0 (by decide)
      (Or.inl (by decide)) (by decide)⟩

/-! ## C4: bus early-exit in Tier 4 -/

theorem get_congr {l₁ l₂ : List α} (h : l₁ = l₂) (i : Nat) (h₁ : i < l₁.length)
    (h₂ : i < l₂.length) : l₁.get ⟨i, h₁⟩ = l₂.get ⟨i, h₂⟩ := by
  subst h
  rfl

theorem mmwpc_length (pages : List String) :
    ∀ g : List Row, (match_mediatype_with_pdf_content pages g).length = g.length := by
  intro g
  induction g with
  | nil => rfl
  | cons r rest ih =>
    rw [match_mediatype_with_pdf_content]
    by_cases hb : hasSub (pyLower r.mediaType) "bus"
    · rw [if_pos hb]
    · rw [if_neg hb]
      simpa using ih

/-- C4, counterexample: in a vendor group that is eligible for the Tier 4
fallback, a row placed before the row whose media type contains "bus" is
still matched by Tier 4; the bus early-exit only aborts the rest of the
group, not the whole group.  Here row 0 (media type "poster") is matched at
page 0 even though row 1 has media type "Bus Shelter". -/
theorem C4_counterexample :
    hasSub (pyLower rowBusShelter.mediaType) "bus" = true ∧
    (match_media_type [rowPoster, rowBusShelter] ["poster"]).map
        (fun r => (r.image_matched, r.match_image_index))
      = [(true, 0), (false, -1)] := by
  constructor
  · decide
  · decide

/-- C4, amended: when a row of the vendor group has "bus" in its media type,
Tier 4 leaves that row and every later row of the group unchanged (the row
loop breaks at the first such row); rows placed before the first bus row may
still be matched. -/
theorem C4_amended_bus_abort_suffix (pages : List String) :
    ∀ (g : List Row) (i j : Nat) (hj : j < g.length), j ≤ i →
      hasSub (pyLower ((g.get ⟨j, hj⟩).mediaType)) "bus" = true →
      ∀ (hi : i < g.length) (hi₂ : i < (match_mediatype_with_pdf_content pages g).length),
        (match_mediatype_with_pdf_content pages g).get ⟨i, hi₂⟩ = g.get ⟨i, hi⟩ := by
  intro g
  induction g with
  | nil =>
    intro i j hj
    exact absurd hj (by simp)
  | cons r rest ih =>
    intro i j hj hij hbus hi hi₂
    by_cases hb : hasSub (pyLower r.mediaType) "bus"
    · have heq : match_mediatype_with_pdf_content pages (r :: rest) = r :: rest := by
        rw [match_mediatype_with_pdf_content, if_pos hb]
      exact get_congr heq i hi₂ hi
    · cases j with
      | zero =>
        exact absurd (by simpa using hbus) hb
      | succ j₂ =>
        cases i with
        | zero => omega
        | succ i₂ =>
          have heq : match_mediatype_with_pdf_content pages (r :: rest)
              = t4row pages r :: match_mediatype_with_pdf_content pages rest := by
            rw [match_mediatype_with_pdf_content, if_neg hb]
          have hj₂ : j₂ < rest.length := by
            have := hj
            simp at this
            omega
          have hi₂r : i₂ < rest.length := by
            have := hi
            simp at this
            omega
          have hi₂m : i₂ < (match_mediatype_with_pdf_content pages rest).length := by
            rw [mmwpc_length]
            exact hi₂r
          have hbus₂ : hasSub (pyLower ((rest.get ⟨j₂, hj₂⟩).mediaType)) "bus" = true := by
            simpa using hbus
          have hrec := ih i₂ j₂ hj₂ (by omega) hbus₂ hi₂r hi₂m
          calc (match_mediatype_with_pdf_content pages (r :: rest)).get ⟨i₂ + 1, hi₂⟩
              = (t4row pages r :: match_mediatype_with_pdf_content pages rest).get
                  ⟨i₂ + 1, by simpa [heq] using hi₂⟩ := get_congr heq _ hi₂ _
            _ = (match_mediatype_with_pdf_content pages rest).get ⟨i₂, hi₂m⟩ := by
                simp
            _ = rest.get ⟨i₂, hi₂r⟩ := hrec
            _ = (r :: rest).get ⟨i₂ + 1, hi⟩ := by simp

/-- C4, witness for the amended theorem: in the concrete two-row vendor group
the bus row itself (index 1) is left unchanged by Tier 4. -/
theorem C4_amended_bus_abort_suffix_witness :
    hasSub (pyLower (([rowPoster, rowBusShelter].get
        ⟨1, by decide⟩).mediaType)) "bus" = true ∧
    (match_mediatype_with_pdf_content ["poster"] [rowPoster, rowBusShelter]).get
        ⟨1, by decide⟩ = rowBusShelter :=
  ⟨by decide,
    C4_amended_bus_abort_suffix ["poster"] [rowPoster, rowBusShelter] 1 1 (by decide)
      (by decide) (by decide) (by decide) (by decide)⟩

/-! ## C1: both index fields, and the bus flag frame -/

/-- C1, counterexample: after the full tier sequence the single row has both
`match_image_index = 0` (set by Tier 2 from the page text) and
`match_image_file_index = 0` (set by Tier 3 from the filename), because
`match_with_image_files` does not skip rows that are already matched; so it
is not true that at most one of the two index fields is set. -/
theorem C1_counterexample :
    (fullSequence [rowC1] ["5"] ["5.jpg"]).map
        (fun r => (r.image_matched, r.match_image_index, r.match_image_file_index))
      = [(true, 0, 0)] := by
  decide

theorem foldl_inv {α β : Type _} (P : β → Prop) (step : β → α → β)
    (hstep : ∀ b a, P b → P (step b a)) :
    ∀ (l : List α) (b : β), P b → P (l.foldl step b) := by
  intro l
  induction l with
  | nil => intro b hb; exact hb
  | cons a as ih =>
    intro b hb
    simpa [List.foldl] using ih (step b a) (hstep b a hb)

theorem busFrame_refl (a : Row) : busFrame a a :=
  ⟨rfl, rfl, rfl, rfl, rfl, rfl, rfl, rfl, rfl⟩

theorem busFrame_comp {a b c : Row} (h₁ : busFrame a b) (h₂ : busFrame b c) : busFrame a c := by
  obtain ⟨u₁, v₁, m₁, la₁, lo₁, s₁, i₁, x₁, f₁⟩ := h₁
  obtain ⟨u₂, v₂, m₂, la₂, lo₂, s₂, i₂, x₂, f₂⟩ := h₂
  exact ⟨u₁.trans u₂, v₁.trans v₂, m₁.trans m₂, la₁.trans la₂, lo₁.trans lo₂,
    s₁.trans s₂, i₁.trans i₂, x₁.trans x₂, f₁.trans f₂⟩

theorem busFrame_set {v : String} (r : Row) :
    busFrame r (if r.vendor == v then { r with bus_media := 1 } else r) := by
  by_cases h : r.vendor == v
  · rw [if_pos h]
    exact ⟨rfl, rfl, rfl, rfl, rfl, rfl, rfl, rfl, rfl⟩
  · rw [if_neg h]
    exact busFrame_refl r

theorem forall2_comp {α : Type _} {R : α → α → Prop} (hR : ∀ a b c, R a b → R b c → R a c) :
    ∀ {l₁ l₂ l₃ : List α}, List.Forall₂ R l₁ l₂ → List.Forall₂ R l₂ l₃ → List.Forall₂ R l₁ l₃ := by
  intro l₁ l₂ l₃ h₁
  induction h₁ generalizing l₃ with
  | nil =>
    intro h₂
    cases h₂
    exact List.Forall₂.nil
  | cons hab h ih =>
    intro h₂
    cases h₂ with
    | cons hbc h₂ => exact List.Forall₂.cons (hR _ _ _ hab hbc) (ih h₂)

theorem match_bus_media_frame (s : List Row) :
    List.Forall₂ busFrame s (match_bus_media s) := by
  rw [match_bus_media]
  apply foldl_inv (fun acc => List.Forall₂ busFrame s acc)
  · intro acc v hacc
    by_cases hg : vendorAllUnmatched s v
    · rw [if_pos hg]
      by_cases ha : (acc.filter (fun r => r.vendor == v)).any
          (fun r => hasSub (pyLower r.mediaType) "bus")
      · rw [if_pos ha, List.forall₂_map_right_iff]
        exact hacc.imp (fun a b hab => busFrame_comp hab (busFrame_set b))
      · rw [if_neg ha]
        exact hacc
    · rw [if_neg hg]
      exact hacc
  · exact List.forall₂_same.mpr (fun a _ => busFrame_refl a)

/-- C1, amended: after the full tier sequence a row may carry both a page
match index and a file match index (see the counterexample), but the second
half of the claim does hold: `match_bus_media` never changes
`image_matched`, `match_image_index` or `match_image_file_index` on any
row. -/
theorem C1_amended_bus_flag_frame (s : List Row) :
    (match_bus_media s).length = s.length ∧
    ∀ (i : Nat) (hi : i < s.length) (hi₂ : i < (match_bus_media s).length),
      ((match_bus_media s).get ⟨i, hi₂⟩).image_matched = (s.get ⟨i, hi⟩).image_matched ∧
      ((match_bus_media s).get ⟨i, hi₂⟩).match_image_index = (s.get ⟨i, hi⟩).match_image_index ∧
      ((match_bus_media s).get ⟨i, hi₂⟩).match_image_file_index
        = (s.get ⟨i, hi⟩).match_image_file_index := by
  have h := match_bus_media_frame s
  rw [List.forall₂_iff_get] at h
  obtain ⟨hlen, hget⟩ := h
  refine ⟨hlen.symm, ?_⟩
  intro i hi hi₂
  obtain ⟨_, _, _, _, _, _, h₇, h₈, h₉⟩ := hget i hi hi₂
  exact ⟨h₇.symm, h₈.symm, h₉.symm⟩

/-- C1, witness for the amended theorem: the bus flag pass on the concrete
vendor group sets `bus_media` but leaves the match fields of row 0 alone. -/
theorem C1_amended_bus_flag_frame_witness :
    ((match_bus_media [rowPoster, rowBusShelter]).get ⟨0, by decide⟩).image_matched
        = ([rowPoster, rowBusShelter].get ⟨0, by decide⟩).image_matched ∧
    ((match_bus_media [rowPoster, rowBusShelter]).get ⟨0, by decide⟩).match_image_index
        = ([rowPoster, rowBusShelter].get ⟨0, by decide⟩).match_image_index ∧
    ((match_bus_media [rowPoster, rowBusShelter]).get ⟨0, by decide⟩).match_image_file_index
        = ([rowPoster, rowBusShelter].get ⟨0, by decide⟩).match_image_file_index :=
  (C1_amended_bus_flag_frame [rowPoster, rowBusShelter]).2 0 (by decide) (by decide)

/-! ## C6: idempotence on a fully matched row set -/

theorem coreFrame_refl (a : Row) : coreFrame a a :=
  ⟨rfl, rfl, rfl, rfl, rfl, rfl, rfl⟩

theorem coreFrame_comp {a b c : Row} (h₁ : coreFrame a b) (h₂ : coreFrame b c) : coreFrame a c := by
  obtain ⟨u₁, v₁, m₁, la₁, lo₁, s₁, f₁⟩ := h₁
  obtain ⟨u₂, v₂, m₂, la₂, lo₂, s₂, f₂⟩ := h₂
  exact ⟨u₁.trans u₂, v₁.trans v₂, m₁.trans m₂, la₁.trans la₂, lo₁.trans lo₂,
    s₁.trans s₂, f₁.trans f₂⟩

theorem busFrame_to_core {a b : Row} (h : busFrame a b) : coreFrame a b := by
  obtain ⟨u, v, m, la, lo, s, _, _, f⟩ := h
  exact ⟨u, v, m, la, lo, s, f⟩

theorem t4row_core (pages : List String) (r : Row) : coreFrame r (t4row pages r) := by
  rw [t4row]
  cases hfi : pyFindIdx (pageHit (pyLower r.mediaType)) pages with
  | none => exact coreFrame_refl r
  | some idx => exact ⟨rfl, rfl, rfl, rfl, rfl, rfl, rfl⟩

theorem mmwpc_core (pages : List String) :
    ∀ g : List Row, List.Forall₂ coreFrame g (match_mediatype_with_pdf_content pages g) := by
  intro g
  induction g with
  | nil => exact List.Forall₂.nil
  | cons r rest ih =>
    rw [match_mediatype_with_pdf_content]
    by_cases hb : hasSub (pyLower r.mediaType) "bus"
    · rw [if_pos hb]
      exact List.forall₂_same.mpr (fun a _ => coreFrame_refl a)
    · rw [if_neg hb]
      exact List.Forall₂.cons (t4row_core pages r) ih

theorem scatter_core :
    ∀ (acc : List Row) (v : String) (g : List Row),
      List.Forall₂ coreFrame (acc.filter (fun r => r.vendor == v)) g →
      List.Forall₂ coreFrame acc (scatterVendor acc v g) := by
  intro acc
  induction acc with
  | nil =>
    intro v g _
    exact List.Forall₂.nil
  | cons r rest ih =>
    intro v g h
    by_cases hv : r.vendor == v
    · rw [List.filter_cons_of_pos (by simpa using hv)] at h
      cases h with
      | @cons _ b _ g₂ hr h₂ =>
        have heq : scatterVendor (r :: rest) v (b :: g₂) = b :: scatterVendor rest v g₂ := by
          rw [scatterVendor.eq_def]
          simp only [if_pos hv]
        rw [heq]
        exact List.Forall₂.cons hr (ih v g₂ h₂)
    · rw [List.filter_cons_of_neg (by simpa using hv)] at h
      have heq : scatterVendor (r :: rest) v g = r :: scatterVendor rest v g := by
        rw [scatterVendor.eq_def]
        simp only [if_neg hv]
      rw [heq]
      exact List.Forall₂.cons (coreFrame_refl r) (ih v g h)

theorem match_media_type_frame (s : List Row) (pages : List String) :
    List.Forall₂ coreFrame s (match_media_type s pages) := by
  rw [match_media_type]
  apply foldl_inv (fun acc => List.Forall₂ coreFrame s acc)
  · intro acc v hacc
    by_cases hg : vendorAllUnmatched s v
    · rw [if_pos hg]
      exact forall2_comp (R := coreFrame) (fun a b c h₁ h₂ => coreFrame_comp h₁ h₂) hacc
        (scatter_core acc v _ (mmwpc_core pages _))
    · rw [if_neg hg]
      exact hacc
  · exact List.forall₂_same.mpr (fun a _ => coreFrame_refl a)

theorem uniqueVendors_mem :
    ∀ (s : List Row) (v : String), v ∈ uniqueVendors s → ∃ r ∈ s, r.vendor = v := by
  have key : ∀ (l : List Row) (acc : List String) (v : String),
      v ∈ l.foldl (fun acc r => if acc.contains r.vendor then acc else acc ++ [r.vendor]) acc →
      v ∈ acc ∨ ∃ r ∈ l, r.vendor = v := by
    intro l
    induction l with
    | nil =>
      intro acc v h
      exact Or.inl h
    | cons r rest ih =>
      intro acc v h
      rw [List.foldl_cons] at h
      rcases ih _ v h with h₁ | h₁
      · by_cases hc : acc.contains r.vendor
        · rw [if_pos hc] at h₁
          exact Or.inl h₁
        · rw [if_neg hc] at h₁
          rcases List.mem_append.mp h₁ with h₂ | h₂
          · exact Or.inl h₂
          · refine Or.inr ⟨r, List.mem_cons_self r rest, ?_⟩
            have : v = r.vendor := by simpa using h₂
            exact this.symm
      · obtain ⟨r₂, hr₂, hv₂⟩ := h₁
        exact Or.inr ⟨r₂, List.mem_cons_of_mem r hr₂, hv₂⟩
  intro s v hv
  rw [uniqueVendors] at hv
  rcases key s [] v hv with h | h
  · cases h
  · exact h

theorem vendorAllUnmatched_false {s : List Row} {v : String}
    (h : ∀ r ∈ s, r.image_matched = true) (hv : v ∈ uniqueVendors s) :
    vendorAllUnmatched s v = false := by
  obtain ⟨r, hr, hveq⟩ := uniqueVendors_mem s v hv
  rw [vendorAllUnmatched, Bool.eq_false_iff]
  intro hall
  have hrf : r ∈ s.filter (fun r => r.vendor == v) :=
    List.mem_filter.mpr ⟨hr, by simp [hveq]⟩
  have hthis := List.all_eq_true.mp hall r hrf
  rw [h r hr] at hthis
  simp at hthis

theorem foldl_gate_id {α β : Type _} (gate : α → Bool) (f : β → α → β) :
    ∀ (l : List α) (b : β), (∀ v ∈ l, gate v = false) →
      l.foldl (fun acc v => if gate v then f acc v else acc) b = b := by
  intro l
  induction l with
  | nil =>
    intro b _
    rfl
  | cons a as ih =>
    intro b h
    rw [List.foldl_cons, if_neg (by simp [h a (List.mem_cons_self a as)])]
    exact ih b (fun v hv => h v (List.mem_cons_of_mem a hv))

theorem match_media_type_fixed (s : List Row) (pages : List String)
    (h : ∀ r ∈ s, r.image_matched = true) : match_media_type s pages = s := by
  rw [match_media_type]
  exact foldl_gate_id (vendorAllUnmatched s)
    (fun acc v =>
      scatterVendor acc v
        (match_mediatype_with_pdf_content pages (acc.filter (fun r => r.vendor == v))))
    (uniqueVendors s) s (fun v hv => vendorAllUnmatched_false h hv)

theorem match_bus_media_fixed (s : List Row)
    (h : ∀ r ∈ s, r.image_matched = true) : match_bus_media s = s := by
  rw [match_bus_media]
  exact foldl_gate_id (vendorAllUnmatched s)
    (fun acc v =>
      if (acc.filter (fun r => r.vendor == v)).any
          (fun r => hasSub (pyLower r.mediaType) "bus") then
        acc.map (fun r => if r.vendor == v then { r with bus_media := 1 } else r)
      else acc)
    (uniqueVendors s) s (fun v hv => vendorAllUnmatched_false h hv)

theorem map_get_id {f : α → α} :
    ∀ {l : List α},
      (∀ (i : Nat) (hi : i < l.length), f (l.get ⟨i, hi⟩) = l.get ⟨i, hi⟩) → l.map f = l := by
  intro l
  induction l with
  | nil =>
    intro _
    rfl
  | cons a as ih =>
    intro h
    have h0 := h 0 (by simp)
    simp only [List.map_cons]
    rw [show (a :: as).get ⟨0, by simp⟩ = a from rfl] at h0
    rw [h0]
    congr 1
    apply ih
    intro i hi
    have hsucc := h (i + 1) (by simpa using Nat.succ_lt_succ hi)
    simpa using hsucc

theorem t3row_unit (filenames : List String) (r : Row) : (t3row filenames r).unit = r.unit := by
  rw [t3row]
  cases hfi : pyFindIdx (t3pred r) filenames <;> simp

theorem t3row_media (filenames : List String) (r : Row) :
    (t3row filenames r).mediaType = r.mediaType := by
  rw [t3row]
  cases hfi : pyFindIdx (t3pred r) filenames <;> simp

theorem t3row_self (filenames : List String) (r r₂ : Row)
    (hu : r.unit = r₂.unit) (hm : r.mediaType = r₂.mediaType)
    (hf : r.match_image_file_index = (t3row filenames r₂).match_image_file_index)
    (him : r.image_matched = true) : t3row filenames r = r := by
  have hpred : t3pred r = t3pred r₂ := by
    funext f
    rw [t3pred, t3pred, hu, hm]
  rw [t3row, hpred]
  cases hfi : pyFindIdx (t3pred r₂) filenames with
  | none => rfl
  | some idx =>
    have hfidx : (t3row filenames r₂).match_image_file_index = (idx : Int) := by
      rw [t3row, hfi]
    rw [hfidx] at hf
    obtain ⟨u, v, mt, la, lo, sz, im, mi, mf, bm⟩ := r
    simp at him hf
    subst him
    subst hf
    rfl

/-- C6: running the full tier sequence a second time on a row set on which
the first run left every row with `image_matched = true` changes nothing:
the second run returns the first run output unchanged, field for field. -/
theorem C6_idempotent_on_fully_matched (s : List Row) (pages filenames : List String)
    (h : ∀ r ∈ fullSequence s pages filenames, r.image_matched = true) :
    fullSequence (fullSequence s pages filenames) pages filenames
      = fullSequence s pages filenames := by
  have hA : match_with_pdf_content (fullSequence s pages filenames) pages
      = fullSequence s pages filenames := by
    rw [match_with_pdf_content]
    apply map_get_id
    intro i hi
    exact t2row_skip pages _ (h _ (List.get_mem _ _ _))
  have hC : match_media_type (fullSequence s pages filenames) pages
      = fullSequence s pages filenames :=
    match_media_type_fixed _ pages h
  have hD : match_bus_media (fullSequence s pages filenames)
      = fullSequence s pages filenames :=
    match_bus_media_fixed _ h
  have hB : match_with_image_files (fullSequence s pages filenames) filenames
      = fullSequence s pages filenames := by
    have hF : List.Forall₂ coreFrame
        (match_with_image_files (match_with_pdf_content s pages) filenames)
        (fullSequence s pages filenames) := by
      have f₄ := match_media_type_frame
        (match_with_image_files (match_with_pdf_content s pages) filenames) pages
      have f₅ := (match_bus_media_frame
        (match_media_type
          (match_with_image_files (match_with_pdf_content s pages) filenames) pages)).imp
        (fun a b hab => busFrame_to_core hab)
      exact forall2_comp (R := coreFrame) (fun a b c h₁ h₂ => coreFrame_comp h₁ h₂) f₄
        (f₅.imp (fun a b hab => hab))
    rw [List.forall₂_iff_get] at hF
    obtain ⟨hlen, hget⟩ := hF
    rw [match_with_image_files]
    apply map_get_id
    intro i hi
    have hi₃ : i < (match_with_image_files (match_with_pdf_content s pages) filenames).length := by
      rw [hlen]
      exact hi
    have hi₂ : i < (match_with_pdf_content s pages).length := by
      simpa [match_with_image_files] using hi₃
    have hcore := hget i hi₃ hi
    have ht3 : (match_with_image_files (match_with_pdf_content s pages) filenames).get ⟨i, hi₃⟩
        = t3row filenames ((match_with_pdf_content s pages).get ⟨i, hi₂⟩) := by
      simp [match_with_image_files]
    rw [ht3] at hcore
    obtain ⟨hu, hv, hm, _, _, _, hf⟩ := hcore
    apply t3row_self filenames _ ((match_with_pdf_content s pages).get ⟨i, hi₂⟩)
    · exact hu.symm.trans (t3row_unit filenames _)
    · exact hm.symm.trans (t3row_media filenames _)
    · exact hf.symm
    · exact h _ (List.get_mem _ _ _)
  calc fullSequence (fullSequence s pages filenames) pages filenames
      = match_bus_media
          (match_media_type
            (match_with_image_files
              (match_with_pdf_content (fullSequence s pages filenames) pages) filenames)
            pages) := by rw [fullSequence]
    _ = fullSequence s pages filenames := by rw [hA, hB, hC, hD]

/-- C6, witness: a concrete one-row set fully matched by the first run; the
second run is the identity on it. -/
theorem C6_idempotent_on_fully_matched_witness :
    (∀ r ∈ fullSequence [rowC1] ["5"] ["5.jpg"], r.image_matched = true) ∧
    fullSequence (fullSequence [rowC1] ["5"] ["5.jpg"]) ["5"] ["5.jpg"]
      = fullSequence [rowC1] ["5"] ["5.jpg"] :=
  ⟨by decide, C6_idempotent_on_fully_matched [rowC1] ["5"] ["5.jpg"] (by decide)⟩

/-! ## Selection loops: equations and characterisations -/

theorem group_reduce_nil (decode : Bytes → Option Img) (scorer : Img → Nat)
    (acc : Int × Option Img) : group_reduce decode scorer acc [] = .ok acc := rfl

theorem group_reduce_cons_none (decode : Bytes → Option Img) (scorer : Img → Nat)
    (acc : Int × Option Img) (rest : List (Option Bytes)) :
    group_reduce decode scorer acc (none :: rest) = group_reduce decode scorer acc rest := rfl

theorem group_reduce_cons_some (decode : Bytes → Option Img) (scorer : Img → Nat)
    (acc : Int × Option Img) (b : Bytes) (rest : List (Option Bytes)) :
    group_reduce decode scorer acc (some b :: rest)
      = match decode b with
        | none => .error ()
        | some img =>
          if img.w < 300 || img.h < 300 then group_reduce decode scorer acc rest
          else if (scorer img : Int) > acc.1 then
            group_reduce decode scorer ((scorer img : Int), some img) rest
          else group_reduce decode scorer acc rest := rfl

theorem group_reduce_cons_fail (decode : Bytes → Option Img) (scorer : Img → Nat)
    (acc : Int × Option Img) (b : Bytes) (rest : List (Option Bytes))
    (hd : decode b = none) :
    group_reduce decode scorer acc (some b :: rest) = .error () := by
  rw [group_reduce_cons_some, hd]

theorem group_reduce_cons_decoded (decode : Bytes → Option Img) (scorer : Img → Nat)
    (acc : Int × Option Img) (b : Bytes) (img : Img) (rest : List (Option Bytes))
    (hd : decode b = some img) :
    group_reduce decode scorer acc (some b :: rest)
      = if img.w < 300 || img.h < 300 then group_reduce decode scorer acc rest
        else if (scorer img : Int) > acc.1 then
          group_reduce decode scorer ((scorer img : Int), some img) rest
        else group_reduce decode scorer acc rest := by
  rw [group_reduce_cons_some, hd]

theorem group_reduce_error_iff (decode : Bytes → Option Img) (scorer : Img → Nat) :
    ∀ (g : List (Option Bytes)) (acc : Int × Option Img),
      group_reduce decode scorer acc g = .error ()
        ↔ ∃ b : Bytes, some b ∈ g ∧ decode b = none := by
  intro g
  induction g with
  | nil =>
    intro acc
    simp [group_reduce_nil]
  | cons ob rest ih =>
    intro acc
    cases ob with
    | none =>
      rw [group_reduce_cons_none, ih]
      constructor
      · rintro ⟨b, hb, hd⟩
        exact ⟨b, List.mem_cons_of_mem _ hb, hd⟩
      · rintro ⟨b, hb, hd⟩
        rcases List.mem_cons.mp hb with h₁ | h₁
        · exact absurd h₁ (by simp)
        · exact ⟨b, h₁, hd⟩
    | some b₀ =>
      cases hd : decode b₀ with
      | none =>
        rw [group_reduce_cons_fail decode scorer acc b₀ rest hd]
        simp only [true_iff]
        exact ⟨b₀, List.mem_cons_self _ _, hd⟩
      | some img =>
        rw [group_reduce_cons_decoded decode scorer acc b₀ img rest hd]
        have hside : ∀ b : Bytes, (some b ∈ some b₀ :: rest ∧ decode b = none)
            ↔ (some b ∈ rest ∧ decode b = none) := by
          intro b
          constructor
          · rintro ⟨hb, hdb⟩
            rcases List.mem_cons.mp hb with h₁ | h₁
            · have : b = b₀ := by simpa using h₁
              subst this
              rw [hd] at hdb
              exact absurd hdb (by simp)
            · exact ⟨h₁, hdb⟩
          · rintro ⟨hb, hdb⟩
            exact ⟨List.mem_cons_of_mem _ hb, hdb⟩
        by_cases hdim : (img.w < 300 || img.h < 300) = true
        · rw [if_pos hdim, ih]
          exact exists_congr (fun b => (hside b).symm)
        · rw [if_neg (by simpa using hdim)]
          by_cases hsc : (scorer img : Int) > acc.1
          · rw [if_pos hsc, ih]
            exact exists_congr (fun b => (hside b).symm)
          · rw [if_neg hsc, ih]
            exact exists_congr (fun b => (hside b).symm)

theorem qualifying_nil (decode : Bytes → Option Img) : qualifying decode [] = [] := rfl

theorem qualifying_cons_none (decode : Bytes → Option Img) (rest : List (Option Bytes)) :
    qualifying decode (none :: rest) = qualifying decode rest := by
  simp [qualifying, List.filterMap_cons]

theorem qualifying_cons_fail (decode : Bytes → Option Img) (b : Bytes)
    (rest : List (Option Bytes)) (hd : decode b = none) :
    qualifying decode (some b :: rest) = qualifying decode rest := by
  simp [qualifying, List.filterMap_cons, hd]

theorem qualifying_cons_decoded (decode : Bytes → Option Img) (b : Bytes) (img : Img)
    (rest : List (Option Bytes)) (hd : decode b = some img) :
    qualifying decode (some b :: rest)
      = if 300 ≤ img.w && 300 ≤ img.h then img :: qualifying decode rest
        else qualifying decode rest := by
  by_cases hq : (300 ≤ img.w && 300 ≤ img.h) = true
  · rw [if_pos hq]
    simp [qualifying, List.filterMap_cons, hd, List.filter_cons, hq]
  · rw [if_neg (by simpa using hq)]
    simp only [Bool.not_eq_true] at hq
    simp [qualifying, List.filterMap_cons, hd, List.filter_cons, hq]

theorem group_reduce_ok (decode : Bytes → Option Img) (scorer : Img → Nat) :
    ∀ (g : List (Option Bytes)) (acc : Int × Option Img),
      (∀ b : Bytes, some b ∈ g → (decode b).isSome) →
      group_reduce decode scorer acc g
        = .ok ((qualifying decode g).foldl (step2 scorer) acc) := by
  intro g
  induction g with
  | nil =>
    intro acc _
    rfl
  | cons ob rest ih =>
    intro acc h
    cases ob with
    | none =>
      rw [group_reduce_cons_none, qualifying_cons_none]
      exact ih acc (fun b hb => h b (List.mem_cons_of_mem _ hb))
    | some b₀ =>
      have hb₀ : (decode b₀).isSome := h b₀ (List.mem_cons_self _ _)
      cases hd : decode b₀ with
      | none =>
        rw [hd] at hb₀
        simp at hb₀
      | some img =>
        rw [group_reduce_cons_decoded decode scorer acc b₀ img rest hd,
          qualifying_cons_decoded decode b₀ img rest hd]
        have hrest : ∀ b : Bytes, some b ∈ rest → (decode b).isSome :=
          fun b hb => h b (List.mem_cons_of_mem _ hb)
        by_cases hdim : (img.w < 300 || img.h < 300) = true
        · have hq : (300 ≤ img.w && 300 ≤ img.h) = false := by
            simp only [Bool.or_eq_true, decide_eq_true_eq] at hdim
            simp only [Bool.and_eq_false_iff]
            rcases hdim with h₁ | h₁
            · left; simpa using (by omega : ¬300 ≤ img.w)
            · right; simpa using (by omega : ¬300 ≤ img.h)
          rw [if_pos hdim, if_neg (by simp [hq])]
          exact ih acc hrest
        · have hdim₂ := hdim
          simp only [Bool.or_eq_true, not_or, decide_eq_true_eq] at hdim₂
          have hq : (300 ≤ img.w && 300 ≤ img.h) = true := by
            simp only [Bool.and_eq_true, decide_eq_true_eq]
            omega
          rw [if_neg (by simpa using hdim), if_pos hq, List.foldl_cons]
          by_cases hsc : (scorer img : Int) > acc.1
          · rw [if_pos hsc, show step2 scorer acc img
              = if (scorer img : Int) > acc.1 then ((scorer img : Int), some img) else acc from rfl,
              if_pos hsc]
            exact ih _ hrest
          · rw [if_neg hsc, show step2 scorer acc img
              = if (scorer img : Int) > acc.1 then ((scorer img : Int), some img) else acc from rfl,
              if_neg hsc]
            exact ih acc hrest

theorem stateOf_nil (scorer : Img → Nat) : stateOf scorer [] = ((-1 : Int), none) := rfl

theorem stateOf_cons (scorer : Img → Nat) (a : Img) (as : List Img) :
    stateOf scorer (a :: as)
      = ((lmax ((a :: as).map scorer) : Int), pickFirstMax scorer (a :: as)) := rfl

theorem pickFirstMax_singleton (scorer : Img → Nat) (x : Img) :
    pickFirstMax scorer [x] = some x := by
  rw [pickFirstMax]
  have h1 : lmax [scorer x] = scorer x := by simp [lmax]
  simp [h1]

theorem step2_stateOf (scorer : Img → Nat) (l : List Img) (x : Img) :
    step2 scorer (stateOf scorer l) x = stateOf scorer (l ++ [x]) := by
  cases l with
  | nil =>
    rw [stateOf_nil, step2]
    rw [if_pos (by simp; omega)]
    rw [show ([] : List Img) ++ [x] = [x] from rfl, stateOf_cons]
    have h1 : lmax ([x].map scorer) = scorer x := by simp [lmax]
    rw [h1, pickFirstMax_singleton]
  | cons a as =>
    rw [stateOf_cons, step2]
    by_cases hgt : lmax ((a :: as).map scorer) < scorer x
    · rw [if_pos (show ((scorer x : Int)) > ((lmax ((a :: as).map scorer) : Int),
        pickFirstMax scorer (a :: as)).1 from by
          show ((scorer x : Int)) > (lmax ((a :: as).map scorer) : Int)
          exact_mod_cast hgt)]
      have hmax : lmax (((a :: as) ++ [x]).map scorer) = scorer x := by
        rw [List.map_append, show List.map scorer [x] = [scorer x] from rfl, lmax_append]
        simpa using Nat.max_eq_right (Nat.le_of_lt hgt)
      have hfind : pickFirstMax scorer ((a :: as) ++ [x]) = some x := by
        rw [pickFirstMax, hmax]
        rw [List.find?_append]
        have hnone : (a :: as).find? (fun i => scorer i == scorer x) = none := by
          rw [List.find?_eq_none]
          intro y hy
          simp only [beq_iff_eq]
          intro he
          have hle := le_lmax (List.mem_map_of_mem scorer hy)
          omega
        rw [hnone]
        simp [List.find?]
      rw [show (a :: as) ++ [x] = a :: (as ++ [x]) from rfl] at hmax hfind ⊢
      rw [stateOf_cons, hmax, hfind]
    · rw [if_neg (show ¬((scorer x : Int)) > ((lmax ((a :: as).map scorer) : Int),
        pickFirstMax scorer (a :: as)).1 from by
          show ¬((scorer x : Int)) > (lmax ((a :: as).map scorer) : Int)
          exact_mod_cast hgt)]
      have hle : scorer x ≤ lmax ((a :: as).map scorer) := Nat.le_of_not_lt hgt
      have hmax : lmax (((a :: as) ++ [x]).map scorer) = lmax ((a :: as).map scorer) := by
        rw [List.map_append, show List.map scorer [x] = [scorer x] from rfl, lmax_append]
        simpa using Nat.max_eq_left hle
      have hfind : pickFirstMax scorer ((a :: as) ++ [x]) = pickFirstMax scorer (a :: as) := by
        rw [pickFirstMax, hmax, pickFirstMax]
        rw [List.find?_append]
        have hmem : lmax ((a :: as).map scorer) ∈ (a :: as).map scorer :=
          lmax_mem (by simp)
        obtain ⟨y, hy, hyeq⟩ := List.mem_map.mp hmem
        have hsome : ((a :: as).find? (fun i => scorer i == lmax ((a :: as).map scorer))).isSome := by
          rw [List.find?_isSome]
          exact ⟨y, hy, by simp [hyeq]⟩
        cases hfs : (a :: as).find? (fun i => scorer i == lmax ((a :: as).map scorer)) with
        | none =>
          rw [hfs] at hsome
          simp at hsome
        | some z =>
          simp
      rw [show (a :: as) ++ [x] = a :: (as ++ [x]) from rfl] at hmax hfind ⊢
      rw [stateOf_cons, hmax, hfind]

theorem foldl_step2_general (scorer : Img → Nat) :
    ∀ (rest l : List Img), l ≠ [] →
      rest.foldl (step2 scorer) (stateOf scorer l) = stateOf scorer (l ++ rest) := by
  intro rest
  induction rest with
  | nil =>
    intro l _
    simp
  | cons x xs ih =>
    intro l hl
    rw [List.foldl_cons, step2_stateOf, ih (l ++ [x]) (by simp)]
    congr 1
    simp

theorem foldl_step2_init (scorer : Img → Nat) (l : List Img) :
    (l.foldl (step2 scorer) ((-1 : Int), none)).2 = pickFirstMax scorer l := by
  cases l with
  | nil => rfl
  | cons x xs =>
    rw [List.foldl_cons]
    have h0 : step2 scorer ((-1 : Int), none) x = stateOf scorer [x] := step2_stateOf scorer [] x
    rw [h0, foldl_step2_general scorer xs [x] (by simp)]
    rfl

theorem score_image_bus_le_two (i : Img) : score_image_bus i ≤ 2 := by
  rw [score_image_bus]
  split_ifs <;> omega

theorem foldl_step2_bus_fixed (x : Img) :
    ∀ xs : List Img, xs.foldl (step2 score_image_bus) ((2 : Int), some x) = ((2 : Int), some x) := by
  intro xs
  induction xs with
  | nil => rfl
  | cons y ys ih =>
    rw [List.foldl_cons, step2]
    rw [if_neg (show ¬((score_image_bus y : Int)) > (((2 : Int), some x)).1 from by
      show ¬((score_image_bus y : Int)) > (2 : Int)
      have h := score_image_bus_le_two y
      omega)]
    exact ih

theorem foldl_step2_bus (l : List Img) :
    (l.foldl (step2 score_image_bus) ((1 : Int), none)).2 = firstBus l := by
  induction l with
  | nil => rfl
  | cons x xs ih =>
    rw [List.foldl_cons]
    by_cases hb : 1 < score_image_bus x
    · have hduo : score_image_bus x = 2 := by
        have h := score_image_bus_le_two x
        omega
      have hstep : step2 score_image_bus ((1 : Int), none) x = ((2 : Int), some x) := by
        rw [step2]
        rw [if_pos (show ((score_image_bus x : Int)) > (((1 : Int), (none : Option Img))).1 from by
          show ((score_image_bus x : Int)) > (1 : Int)
          omega)]
        rw [hduo]
        rfl
      rw [hstep, foldl_step2_bus_fixed x xs]
      rw [firstBus, List.find?_cons_of_pos _ (by simpa using hb)]
    · have hstep : step2 score_image_bus ((1 : Int), none) x = ((1 : Int), none) := by
        rw [step2]
        rw [if_neg (show ¬((score_image_bus x : Int)) > (((1 : Int), (none : Option Img))).1 from by
          show ¬((score_image_bus x : Int)) > (1 : Int)
          omega)]
      rw [hstep, ih, firstBus, firstBus, List.find?_cons_of_neg _ (by simpa using hb)]

theorem select_loop_nil (decode : Bytes → Option Img) : select_loop decode [] = .ok [] := rfl

theorem select_loop_cons (decode : Bytes → Option Img) (g : List (Option Bytes))
    (gs : List (List (Option Bytes))) :
    select_loop decode (g :: gs)
      = match group_reduce decode score_image ((-1 : Int), none) g with
        | .error e => .error e
        | .ok acc =>
          match select_loop decode gs with
          | .error e => .error e
          | .ok rest => .ok (acc.2 :: rest) := rfl

theorem select_loop_ok (decode : Bytes → Option Img) :
    ∀ pool₂ : List (List (Option Bytes)),
      (∀ g ∈ pool₂, decodesAll decode g = true) →
      select_loop decode pool₂
        = .ok (pool₂.map (fun g => pickFirstMax score_image (qualifying decode g))) := by
  intro pool₂
  induction pool₂ with
  | nil =>
    intro _
    rfl
  | cons g gs ih =>
    intro h
    have hg : ∀ b : Bytes, some b ∈ g → (decode b).isSome := by
      intro b hb
      have hx := List.all_eq_true.mp (h g (List.mem_cons_self _ _)) _ hb
      simpa using hx
    rw [select_loop_cons, group_reduce_ok decode score_image g _ hg,
      ih (fun g₂ hg₂ => h g₂ (List.mem_cons_of_mem _ hg₂))]
    simp only [List.map_cons]
    rw [foldl_step2_init]

theorem select_loop_error_iff (decode : Bytes → Option Img) :
    ∀ pool₂ : List (List (Option Bytes)),
      select_loop decode pool₂ = .error ()
        ↔ ∃ g ∈ pool₂, ∃ b : Bytes, some b ∈ g ∧ decode b = none := by
  intro pool₂
  induction pool₂ with
  | nil =>
    simp [select_loop_nil]
  | cons g gs ih =>
    rw [select_loop_cons]
    cases hg : group_reduce decode score_image ((-1 : Int), none) g with
    | error e =>
      cases e
      simp only [true_iff]
      obtain ⟨b, hb, hd⟩ := (group_reduce_error_iff decode score_image g _).mp hg
      exact ⟨g, List.mem_cons_self _ _, b, hb, hd⟩
    | ok acc =>
      cases hsl : select_loop decode gs with
      | error e =>
        cases e
        simp only [true_iff]
        obtain ⟨g₂, hg₂, b, hb, hd⟩ := ih.mp hsl
        exact ⟨g₂, List.mem_cons_of_mem _ hg₂, b, hb, hd⟩
      | ok rest =>
        simp only [reduceCtorEq, false_iff]
        rintro ⟨g₂, hg₂, b, hb, hd⟩
        rcases List.mem_cons.mp hg₂ with h₁ | h₁
        · subst h₁
          have hcontra : group_reduce decode score_image ((-1 : Int), none) g₂ = .error () :=
            (group_reduce_error_iff decode score_image g₂ _).mpr ⟨b, hb, hd⟩
          rw [hg] at hcontra
          exact Except.noConfusion hcontra
        · have hcontra : select_loop decode gs = .error () := ih.mpr ⟨g₂, h₁, b, hb, hd⟩
          rw [hsl] at hcontra
          exact Except.noConfusion hcontra

theorem select_loop_bus_nil (decode : Bytes → Option Img) :
    select_loop_bus decode [] = .ok [] := rfl

theorem select_loop_bus_cons (decode : Bytes → Option Img) (g : List (Option Bytes))
    (gs : List (List (Option Bytes))) :
    select_loop_bus decode (g :: gs)
      = match group_reduce decode score_image_bus ((1 : Int), none) g with
        | .error e => .error e
        | .ok acc =>
          match select_loop_bus decode gs with
          | .error e => .error e
          | .ok rest =>
            match acc.2 with
            | some img => .ok (img :: rest)
            | none => .ok rest := rfl

theorem select_loop_bus_ok (decode : Bytes → Option Img) :
    ∀ pool₂ : List (List (Option Bytes)),
      (∀ g ∈ pool₂, decodesAll decode g = true) →
      select_loop_bus decode pool₂
        = .ok (pool₂.filterMap (fun g => firstBus (qualifying decode g))) := by
  intro pool₂
  induction pool₂ with
  | nil =>
    intro _
    rfl
  | cons g gs ih =>
    intro h
    have hg : ∀ b : Bytes, some b ∈ g → (decode b).isSome := by
      intro b hb
      have hx := List.all_eq_true.mp (h g (List.mem_cons_self _ _)) _ hb
      simpa using hx
    rw [select_loop_bus_cons, group_reduce_ok decode score_image_bus g _ hg,
      ih (fun g₂ hg₂ => h g₂ (List.mem_cons_of_mem _ hg₂))]
    rw [List.filterMap_cons]
    dsimp only
    rw [foldl_step2_bus]
    cases hfb : firstBus (qualifying decode g) <;> simp

/-! ## C5, C7, C8: MediaSelector claims -/

/-- C5, counterexample: the claim says a blob that fails to decode is skipped
without raising; but on a pool whose only blob fails to decode, `filter_media`
raises (cv2.imdecode returns None and `image.shape` raises AttributeError)
instead of returning the skip result `[none]`. -/
theorem C5_counterexample :
    filter_media decodeD [[some [9]]] = Except.error () := rfl

/-- C5, amended: a blob of the deduplicated pool that fails to decode is not
skipped: it makes the whole `filter_media` call raise, and this is exactly
when the call raises. -/
theorem C5_amended_decode_failure_raises (decode : Bytes → Option Img)
    (pool : List (List (Option Bytes))) :
    filter_media decode pool = Except.error ()
      ↔ ∃ g ∈ remove_all_duplicates pool, ∃ b : Bytes, some b ∈ g ∧ decode b = none :=
  select_loop_error_iff decode (remove_all_duplicates pool)

/-- C5, witness: the amended theorem applied at a concrete pool with one
undecodable blob. -/
theorem C5_amended_decode_failure_raises_witness :
    filter_media decodeD [[some [8]], [some [1]]] = Except.error () :=
  (C5_amended_decode_failure_raises decodeD [[some [8]], [some [1]]]).mpr
    ⟨[some [8]], by decide, [8], by decide, rfl⟩

/-- C7, counterexample: the claim says `filter_media` returns a sequence of
exactly the same length as the input pool for every pool; but on this
two-group pool whose first group holds an undecodable blob the call raises
and returns no sequence at all. -/
theorem C7_counterexample :
    filter_media decodeD [[some [9]], [some [1]]] = Except.error () := rfl

/-- C7, amended: provided every blob of the (already deduplicated) pool
decodes, `filter_media` returns one slot per input group, index aligned, and
each slot holds the first image of its group attaining the maximum generic
score among decoded images with both dimensions at least 300, or `none` when
the group has no such image. -/
theorem C7_amended_selection (decode : Bytes → Option Img)
    (pool : List (List (Option Bytes)))
    (hfix : remove_all_duplicates pool = pool)
    (hdec : ∀ g ∈ pool, decodesAll decode g = true) :
    filter_media decode pool
      = .ok (pool.map (fun g => pickFirstMax score_image (qualifying decode g))) ∧
    (pool.map (fun g => pickFirstMax score_image (qualifying decode g))).length
      = pool.length := by
  constructor
  · rw [filter_media, hfix]
    exact select_loop_ok decode pool hdec
  · simp

/-- C7, witness: on the concrete pool the small-image group yields `none` and
the other group yields its score-3 image. -/
theorem C7_amended_selection_witness :
    remove_all_duplicates pool7 = pool7 ∧
    (∀ g ∈ pool7, decodesAll decodeD g = true) ∧
    filter_media decodeD pool7 = .ok [none, some imgBig3] := by
  refine ⟨rfl, by decide, ?_⟩
  have h := (C7_amended_selection decodeD pool7 rfl (by decide)).1
  rw [h]
  rfl

/-- C8: after the same deduplication and 300 pixel dimension filtering as the
generic variant, the bus variant accepts an image as a group's best only if
its bus score is strictly greater than 1 (the score ranges over 0 to 2, so
both heuristic signals must agree); a group without such an image is omitted
from the output rather than represented by null, so the output need not be
index aligned with the input pool. -/
theorem C8_bus_selection (decode : Bytes → Option Img)
    (pool : List (List (Option Bytes)))
    (hdec : ∀ g ∈ remove_all_duplicates pool, decodesAll decode g = true) :
    (∀ i : Img, score_image_bus i ≤ 2) ∧
    filter_media_bus decode pool
      = .ok ((remove_all_duplicates pool).filterMap
          (fun g => firstBus (qualifying decode g))) := by
  refine ⟨score_image_bus_le_two, ?_⟩
  rw [filter_media_bus]
  exact select_loop_bus_ok decode _ hdec

/-- C8, witness: a two-group pool where only the bus-score-2 group survives,
so the output has length 1 against an input of length 2. -/
theorem C8_bus_selection_witness :
    (∀ g ∈ remove_all_duplicates pool8, decodesAll decodeD g = true) ∧
    filter_media_bus decodeD pool8 = .ok [imgBus2] ∧
    pool8.length = 2 := by
  refine ⟨by decide, ?_, rfl⟩
  have h := (C8_bus_selection decodeD pool8 (by decide)).2
  rw [h]
  rfl
